import Mathlib

/-!
Shallow embedding of the `leydi-stacks` cooperative fiber runtime
(`src/main.rs`).  The runtime keeps a fixed pool of `MAX_STACKS + 1` stacks
(index 0 is the process main stack), switches between them with a saved
register context, primes fresh stacks with a synthetic return chain, and
carries trigger arguments through a shared event buffer.

Machine-level aspects are modelled as follows:
* the register context is a record of `Nat` fields matching `StackContext`;
* each stack's byte buffer is a map from absolute byte address to the
  machine word stored there (`Word`); function pointers are modelled as
  tagged words;
* operations that panic in Rust (`expect`, out-of-bounds indexing) return
  `none`; the unbounded scheduler scan loop takes explicit fuel, with
  `none` meaning the loop has not returned within that fuel.
-/

namespace LeydiModel

def STACK_BUFFER_SIZE : Nat := 1024 * 1024 * 5

def MAX_STACKS : Nat := 5

def PROCESS_MAIN_STACK_ID : Nat := 0

/-- Fiber states, spelled as in the source. -/
inductive State where
  | AVAIABLE
  | RUNNING
  | READY
deriving DecidableEq, Repr

/-- A machine word stored in a stack buffer: either untouched memory or the
address of one of the runtime's functions. -/
inductive Word where
  | uninit
  | fnFinishAndNext
  | fnFuncReturn
  | fnBase (tag : Nat)
  | fnTrig (tag : Nat)
deriving DecidableEq, Repr

/-- The saved register record (`#[repr(C)] struct StackContext`). -/
structure StackContext where
  rsp : Nat := 0
  r15 : Nat := 0
  r14 : Nat := 0
  r13 : Nat := 0
  r12 : Nat := 0
  rbx : Nat := 0
  rbp : Nat := 0
  edi : Nat := 0
  esi : Nat := 0
deriving DecidableEq, Repr

structure Event where
  pair : Nat × Nat
  data : Nat
deriving DecidableEq, Repr

structure ShareBuffer where
  data_pool : List Event
  avaiable_index : Nat
deriving DecidableEq, Repr

def ShareBuffer.new : ShareBuffer :=
  { data_pool := [], avaiable_index := 0 }

structure Stack where
  stack_id : Nat
  state : State
  /-- address of the first byte of `stack_buffer`; the buffer occupies
  `STACK_BUFFER_SIZE` bytes starting here. -/
  baseAddr : Nat
  /-- contents of memory: the word written at a given absolute address. -/
  buf : Nat → Word
  stack_context : StackContext

def Stack.new (stack_id : Nat) (state : State) (baseAddr : Nat) : Stack :=
  { stack_id, state, baseAddr, buf := fun _ => Word.uninit, stack_context := {} }

/-- `x & !15`: round down to a multiple of 16. -/
def align16 (x : Nat) : Nat := x - x % 16

/-- The 16-byte aligned top of a stack's buffer
(`(stack_buff_ptr as usize & !15)` with `stack_buff_ptr = base + len`;
the addition is written with the length first, which is the same number). -/
def Stack.alignedTop (s : Stack) : Nat := align16 (STACK_BUFFER_SIZE + s.baseAddr)

structure LeydiStacks where
  stack_pool : List Stack
  curr_stack_id : Nat
  data_buffer : ShareBuffer

/-- `LeydiStacks::new()`: main stack RUNNING at index 0 followed by
`MAX_STACKS` AVAIABLE worker stacks with ids `1..=MAX_STACKS`.  The heap
address at which each stack buffer happens to be allocated is supplied by
`bases`. -/
def LeydiStacks.new (bases : Nat → Nat) : LeydiStacks :=
  { stack_pool :=
      Stack.new PROCESS_MAIN_STACK_ID State.RUNNING (bases 0) ::
        (List.range' 1 MAX_STACKS).map (fun i => Stack.new i State.AVAIABLE (bases i)),
    curr_stack_id := PROCESS_MAIN_STACK_ID,
    data_buffer := ShareBuffer.new }

inductive ScheduleType where
  | RR
  | O1 (id : Nat)

/-- The state of fiber `i`, when the pool has such an entry. -/
def stateOf (rt : LeydiStacks) (i : Nat) : Option State :=
  (rt.stack_pool[i]?).map (fun s => s.state)

/-- The index update in the body of the RR selection loop:
`rid += 1; if rid == MAX_STACKS { rid = 0; }`. -/
def nextIdx (rid : Nat) : Nat := if rid + 1 = MAX_STACKS then 0 else rid + 1

/-- The RR selection loop of `switch_stack`:

    while stack_pool[rid].state != READY {
        rid += 1;
        if rid == MAX_STACKS { rid = 0; }
        if rid == curr_stack_id { return false; }
    }

`some (some r)` means the loop exited with `rid = r`; `some none` means the
loop returned false; `none` means the loop has not returned within `fuel`
iterations (or indexing panicked). -/
def rrScanAux (rt : LeydiStacks) : Nat → Nat → Option (Option Nat)
  | 0, _ => none
  | fuel + 1, rid =>
    match rt.stack_pool[rid]? with
    | none => none
    | some s =>
      if s.state = State.READY then some (some rid)
      else if nextIdx rid = rt.curr_stack_id then some none
      else rrScanAux rt fuel (nextIdx rid)

/-- The state transitions `switch_stack` performs once a target `rid` is
selected: mark the target RUNNING, demote the outgoing stack to READY
unless it is AVAIABLE, and move `curr_stack_id` (the register swap itself
has no effect on the modelled state). -/
def doSwitch (rt : LeydiStacks) (rid : Nat) : Option LeydiStacks :=
  match rt.stack_pool[rid]? with
  | none => none
  | some s =>
    match (rt.stack_pool.set rid { s with state := State.RUNNING })[rt.curr_stack_id]? with
    | none => none
    | some c =>
      if c.state ≠ State.AVAIABLE then
        some { rt with
          stack_pool := (rt.stack_pool.set rid { s with state := State.RUNNING }).set
            rt.curr_stack_id { c with state := State.READY },
          curr_stack_id := rid }
      else
        some { rt with
          stack_pool := rt.stack_pool.set rid { s with state := State.RUNNING },
          curr_stack_id := rid }

/-- `switch_stack(schedule_type)`. -/
def switch_stack (fuel : Nat) (rt : LeydiStacks) (schedule_type : ScheduleType) :
    Option (Bool × LeydiStacks) :=
  match schedule_type with
  | ScheduleType.RR =>
    match rrScanAux rt fuel 0 with
    | none => none
    | some none => some (false, rt)
    | some (some rid) => (doSwitch rt rid).map (fun r => (true, r))
  | ScheduleType.O1 id => (doSwitch rt id).map (fun r => (true, r))

/-- The stack-priming writes of `new_stack`: mark the stack READY and write
the synthetic return chain below the aligned top of its buffer. -/
def primeStack (s : Stack) (base_function trigger_function : Nat) : Stack :=
  let top := s.alignedTop
  let buf1 : Nat → Word := fun a =>
    if a = top - 16 then Word.fnFinishAndNext
    else if a = top - 24 then Word.fnFuncReturn
    else if a = top - 32 then Word.fnTrig trigger_function
    else if a = top - 40 then Word.fnFuncReturn
    else if a = top - 48 then Word.fnFinishAndNext
    else if a = top - 56 then Word.fnFuncReturn
    else if a = top - 64 then Word.fnBase base_function
    else s.buf a
  { s with state := State.READY, buf := buf1,
           stack_context := { s.stack_context with rsp := top - 64 } }

/-- `new_stack(base_function, trigger_function)`: find the first AVAIABLE
stack (`none` models the `expect` panic when there is none), mark it READY
and prime its buffer.  Also returns the index of the primed stack. -/
def new_stack (rt : LeydiStacks) (base_function trigger_function : Nat) :
    Option (Nat × LeydiStacks) :=
  match rt.stack_pool.findIdx? (fun s => s.state == State.AVAIABLE) with
  | none => none
  | some j =>
    match rt.stack_pool[j]? with
    | none => none
    | some s =>
      some (j, { rt with
        stack_pool := rt.stack_pool.set j (primeStack s base_function trigger_function) })

/-- `terminate_stacks`: make every stack AVAIABLE, the main stack READY,
then RR-switch. -/
def terminate_stacks (fuel : Nat) (rt : LeydiStacks) : Option (Bool × LeydiStacks) :=
  match (rt.stack_pool.map (fun s => { s with state := State.AVAIABLE }))[PROCESS_MAIN_STACK_ID]? with
  | none => none
  | some m =>
    switch_stack fuel { rt with stack_pool := (rt.stack_pool.map (fun s => { s with state := State.AVAIABLE })).set PROCESS_MAIN_STACK_ID { m with state := State.READY } } ScheduleType.RR

/-- `switch_stack_to(stack_id)`: refuse a target that is already RUNNING,
otherwise do a targeted switch. -/
def switch_stack_to (fuel : Nat) (rt : LeydiStacks) (stack_id : Nat) :
    Option (Bool × LeydiStacks) :=
  match rt.stack_pool[stack_id]? with
  | none => none
  | some s =>
    if s.state = State.RUNNING then some (false, rt)
    else switch_stack fuel rt (ScheduleType.O1 stack_id)

def TRIGGER_OFFSET : Nat := 32

/-- `trigger_stack_func(target_stack_id, event)`: reject id 0 or an id past
`MAX_STACKS`; otherwise rewrite the target's saved stack pointer to
`alignedTop - 32`, append the event, pass the calling stack's id and the
pre-append buffer index in the argument registers, bump the index and do a
targeted switch. -/
def trigger_stack_func (fuel : Nat) (rt : LeydiStacks) (target_stack_id : Nat)
    (event : Event) : Option (Bool × LeydiStacks) :=
  if target_stack_id ≤ PROCESS_MAIN_STACK_ID ∨ target_stack_id > MAX_STACKS then
    some (false, rt)
  else
    match rt.stack_pool[target_stack_id]? with
    | none => none
    | some t =>
      switch_stack_to fuel { rt with stack_pool := rt.stack_pool.set target_stack_id { t with stack_context := { t.stack_context with rsp := t.alignedTop - TRIGGER_OFFSET, edi := rt.curr_stack_id, esi := rt.data_buffer.avaiable_index } }, data_buffer := { data_pool := rt.data_buffer.data_pool ++ [event], avaiable_index := rt.data_buffer.avaiable_index + 1 } } target_stack_id

/-- `finish_and_next_stack`: when not on the main stack, release the
current stack to AVAIABLE and RR-switch away. -/
def finish_and_next_stack (fuel : Nat) (rt : LeydiStacks) : Option LeydiStacks :=
  if rt.curr_stack_id ≠ PROCESS_MAIN_STACK_ID then
    match rt.stack_pool[rt.curr_stack_id]? with
    | none => none
    | some c =>
      match switch_stack fuel { rt with stack_pool := rt.stack_pool.set rt.curr_stack_id { c with state := State.AVAIABLE } } ScheduleType.RR with
      | none => none
      | some r => some r.2
  else some rt

/-!
## Execution model

The scheduler functions above describe how each runtime call mutates the
fiber table; control flow between fibers is carried by the machine through
saved stack pointers.  To settle the end-to-end scenario claims we add an
execution layer: each fiber's user code is a small script of runtime calls
and log appends, and each fiber carries the continuation that the machine
would resume (its primed entry chain, or the point after its last call).
-/

inductive Instr where
  | log (s : String) (n : Nat)
  /-- log `(s, a0)` where `a0` is the fiber's first trigger argument
  (the value the switch loaded into `edi`). -/
  | logArg (s : String)
  | yieldNext
  | gotoMain
  | stackTo (id : Nat)
  | trigger (id : Nat) (ev : Event)
  /-- main only: enter the `run` loop, continuing with the rest of the
  script once `switch_stack` reports quiescence. -/
  | runRt
deriving DecidableEq, Repr

/-- The continuation a fiber resumes with when switched in. -/
inductive FiberK where
  /-- saved rsp at `top - 64`: start the body, then the finish chain. -/
  | primedBody
  /-- saved rsp at `top - 32` with trigger arguments in `edi`/`esi`:
  start the trigger entry, then the finish chain. -/
  | primedTrig (a0 a1 : Nat)
  /-- suspended inside its script after a runtime call returned. -/
  | paused (a0 a1 : Nat) (rest : List Instr)
  /-- main suspended inside the `run` loop. -/
  | runLoop (rest : List Instr)
  /-- the fiber's frames are gone; resuming it would be undefined. -/
  | dead
deriving Repr

structure Exec where
  rt : LeydiStacks
  ks : Nat → FiberK
  bodies : Nat → List Instr
  trigs : Nat → List Instr
  log : List (String × Nat)

def updK (ks : Nat → FiberK) (i : Nat) (k : FiberK) : Nat → FiberK :=
  fun j => if j = i then k else ks j

/-- Scan fuel used when driving concrete scenarios: one trip around the
six-slot pool needs at most six iterations. -/
def SCAN_FUEL : Nat := 12

inductive StepRes where
  | next (e : Exec)
  | done (e : Exec)
  | stuck

/-- One execution step of the fiber that currently holds the CPU. -/
def step (e : Exec) : StepRes :=
  let cur := e.rt.curr_stack_id
  match e.ks cur with
  | FiberK.primedBody =>
    StepRes.next { e with ks := updK e.ks cur (FiberK.paused 0 0 (e.bodies cur)) }
  | FiberK.primedTrig a b =>
    StepRes.next { e with ks := updK e.ks cur (FiberK.paused a b (e.trigs cur)) }
  | FiberK.dead => StepRes.stuck
  | FiberK.runLoop rest =>
    match switch_stack SCAN_FUEL e.rt ScheduleType.RR with
    | some (true, rt1) => StepRes.next { e with rt := rt1 }
    | some (false, rt1) =>
      StepRes.next { e with rt := rt1, ks := updK e.ks cur (FiberK.paused 0 0 rest) }
    | none => StepRes.stuck
  | FiberK.paused _ _ [] =>
    if cur = PROCESS_MAIN_STACK_ID then StepRes.done e
    else
      match finish_and_next_stack SCAN_FUEL e.rt with
      | some rt1 => StepRes.next { e with rt := rt1, ks := updK e.ks cur FiberK.dead }
      | none => StepRes.stuck
  | FiberK.paused a b (i :: rest) =>
    match i with
    | Instr.log s n =>
      StepRes.next { e with log := e.log ++ [(s, n)],
                            ks := updK e.ks cur (FiberK.paused a b rest) }
    | Instr.logArg s =>
      StepRes.next { e with log := e.log ++ [(s, a)],
                            ks := updK e.ks cur (FiberK.paused a b rest) }
    | Instr.runRt =>
      StepRes.next { e with ks := updK e.ks cur (FiberK.runLoop rest) }
    | Instr.yieldNext =>
      match switch_stack SCAN_FUEL e.rt ScheduleType.RR with
      | some (_, rt1) =>
        StepRes.next { e with rt := rt1, ks := updK e.ks cur (FiberK.paused a b rest) }
      | none => StepRes.stuck
    | Instr.gotoMain =>
      match terminate_stacks SCAN_FUEL e.rt with
      | some (_, rt1) =>
        StepRes.next { e with rt := rt1, ks := updK e.ks cur (FiberK.paused a b rest) }
      | none => StepRes.stuck
    | Instr.stackTo id =>
      match switch_stack_to SCAN_FUEL e.rt id with
      | some (_, rt1) =>
        StepRes.next { e with rt := rt1, ks := updK e.ks cur (FiberK.paused a b rest) }
      | none => StepRes.stuck
    | Instr.trigger id ev =>
      match trigger_stack_func SCAN_FUEL e.rt id ev with
      | some (_, rt1) =>
        let ks1 := updK e.ks cur (FiberK.paused a b rest)
        -- when the id passed validation the target's saved rsp was moved to
        -- `top - 32` and its argument registers were overwritten, so its
        -- next resume enters the trigger entry with these arguments
        let ks2 :=
          if 1 ≤ id ∧ id ≤ MAX_STACKS then
            updK ks1 id (FiberK.primedTrig e.rt.curr_stack_id e.rt.data_buffer.avaiable_index)
          else ks1
        StepRes.next { e with rt := rt1, ks := ks2 }
      | none => StepRes.stuck

/-- Run up to `n` steps; `some` is the configuration at which the main
script finished, `none` means the execution got stuck or did not finish. -/
def runExec : Nat → Exec → Option Exec
  | 0, _ => none
  | n + 1, e =>
    match step e with
    | StepRes.done e1 => some e1
    | StepRes.next e1 => runExec n e1
    | StepRes.stuck => none

/-- Host-side `new_stack` call before `run`: prime a stack and record the
scripts its body and trigger entry will execute. -/
def spawnE (e : Exec) (body trig : List Instr) : Option Exec :=
  match new_stack e.rt 0 0 with
  | some (j, rt1) =>
    some { e with rt := rt1,
                  ks := updK e.ks j FiberK.primedBody,
                  bodies := fun x => if x = j then body else e.bodies x,
                  trigs := fun x => if x = j then trig else e.trigs x }
  | none => none

/-- A fresh process: fresh runtime, main holding the CPU about to execute
`mainScript`, all worker slots unprimed. -/
def initExec (bases : Nat → Nat) (mainScript : List Instr) : Exec :=
  { rt := LeydiStacks.new bases,
    ks := fun i => if i = PROCESS_MAIN_STACK_ID then FiberK.paused 0 0 mainScript else FiberK.dead,
    bodies := fun _ => [],
    trigs := fun _ => [],
    log := [] }

/-- Spawn the bodies of a list of scripts in order (with trivial trigger
entries), as the demo `main` does before calling `run`. -/
def spawnAll (e : Exec) : List (List Instr × List Instr) → Option Exec
  | [] => some e
  | (body, trig) :: rest =>
    match spawnE e body trig with
    | some e1 => spawnAll e1 rest
    | none => none

/-!
## Derived definitions used by the verification

Concrete states, scenario set-ups, and the invariants and reachability
relation the claims quantify over.
-/

/-- A concrete choice of buffer base addresses. -/
def bases0 : Nat → Nat := fun _ => 0

/-- A freshly constructed runtime. -/
def rtInit : LeydiStacks := LeydiStacks.new bases0

/-- Scenario driver for pool-exhaustion: `n` successive `new_stack` calls,
stopping at the first panic. -/
def spawnN : Nat → Option LeydiStacks → Option LeydiStacks
  | 0, r => r
  | n + 1, r => spawnN n (r.bind (fun rt => (new_stack rt 0 0).map Prod.snd))

/-- Scenario S1 with `k` bodies: spawn `k` fibers whose bodies append
`("fiber", id)` to the log and return, then `run`. -/
def s1exec (k : Nat) : Option Exec :=
  spawnAll (initExec bases0 [Instr.runRt])
    ((List.range' 1 k).map (fun i => ([Instr.log "fiber" i], ([] : List Instr))))

/-- Scenario S2: two fibers that each log, yield, log again; then `run`. -/
def s2exec : Option Exec :=
  spawnAll (initExec bases0 [Instr.runRt])
    [([Instr.log "A1" 0, Instr.yieldNext, Instr.log "A2" 0], []),
     ([Instr.log "B1" 0, Instr.yieldNext, Instr.log "B2" 0], [])]

/-- Scenario S3: one fiber whose body would log `"body1"` and whose trigger
entry logs `("trig1", from_id)`; main triggers it directly. -/
def s3exec : Option Exec :=
  spawnE (initExec bases0 [Instr.trigger 1 { pair := (0, 0), data := 42 }])
    [Instr.log "body1" 0] [Instr.logArg "trig1"]

/-- Exactly one fiber is RUNNING and it is the one `curr_stack_id` names. -/
def ExactlyOneRunning (rt : LeydiStacks) : Prop :=
  stateOf rt rt.curr_stack_id = some State.RUNNING ∧
  ∀ j, j ≠ rt.curr_stack_id → stateOf rt j ≠ some State.RUNNING

/-- The inductive invariant of the scheduler state. -/
structure Inv (rt : LeydiStacks) : Prop where
  len : rt.stack_pool.length = MAX_STACKS + 1
  curr_le : rt.curr_stack_id ≤ MAX_STACKS
  running : stateOf rt rt.curr_stack_id = some State.RUNNING
  unique : ∀ j, j ≠ rt.curr_stack_id → stateOf rt j ≠ some State.RUNNING
  main_ready : rt.curr_stack_id ≠ PROCESS_MAIN_STACK_ID →
    stateOf rt PROCESS_MAIN_STACK_ID = some State.READY

/-- Runtime states reachable through the public operations, with
`goto_main` restricted to worker fibers (invoked from the main fiber it
breaks the single-RUNNING invariant, see the C1 counterexample). -/
inductive Reach : LeydiStacks → Prop where
  | init (bases : Nat → Nat) : Reach (LeydiStacks.new bases)
  | spawn {rt rt' : LeydiStacks} (b t j : Nat) :
      Reach rt → new_stack rt b t = some (j, rt') → Reach rt'
  | yieldStep {rt rt' : LeydiStacks} (fuel : Nat) (ok : Bool) :
      Reach rt → switch_stack fuel rt ScheduleType.RR = some (ok, rt') → Reach rt'
  | gotoMainStep {rt rt' : LeydiStacks} (fuel : Nat) (ok : Bool) :
      Reach rt → rt.curr_stack_id ≠ PROCESS_MAIN_STACK_ID →
      terminate_stacks fuel rt = some (ok, rt') → Reach rt'
  | stackToStep {rt rt' : LeydiStacks} (fuel id : Nat) (ok : Bool) :
      Reach rt → switch_stack_to fuel rt id = some (ok, rt') → Reach rt'
  | triggerStep {rt rt' : LeydiStacks} (fuel id : Nat) (ev : Event) (ok : Bool) :
      Reach rt → trigger_stack_func fuel rt id ev = some (ok, rt') → Reach rt'
  | finishStep {rt rt' : LeydiStacks} (fuel : Nat) :
      Reach rt → finish_and_next_stack fuel rt = some rt' → Reach rt'

/-- A runtime state with no READY fiber whose current stack id is
`MAX_STACKS`: the configuration on which the RR scan loops forever. -/
def cexNoReady : LeydiStacks :=
  { stack_pool := rtInit.stack_pool.map (fun s => { s with state := State.AVAIABLE }),
    curr_stack_id := MAX_STACKS,
    data_buffer := ShareBuffer.new }

/-- The runtime state left behind by `terminate_stacks` invoked from the
main fiber (the C1 counterexample state). -/
def rtTerm : LeydiStacks :=
  ((terminate_stacks 12 rtInit).map Prod.snd).getD rtInit

/-- The runtime after one spawn on a fresh pool (C4 witness state). -/
def rtSpawn1 : LeydiStacks :=
  ((new_stack rtInit 7 9).map Prod.snd).getD rtInit

/-- The runtime after `MAX_STACKS` spawns on a fresh pool: every worker
slot consumed (C9 witness state). -/
def rtFull : LeydiStacks :=
  (spawnN MAX_STACKS (some rtInit)).getD rtInit

/-- A state in which worker 1 is the RUNNING fiber (C10 witness state):
spawn one fiber, then switch to it. -/
def rtRunning1 : LeydiStacks :=
  ((switch_stack 12 rtSpawn1 (ScheduleType.O1 1)).map Prod.snd).getD rtInit

/-- Accepted trigger calls: those whose target id passes the id check. -/
def acceptedCount (calls : List (Nat × Event)) : Nat :=
  calls.countP (fun c => decide (1 ≤ c.1 ∧ c.1 ≤ MAX_STACKS))

/-- Perform a sequence of `trigger` calls, collecting the event index each
accepted call delivered in the target's saved `esi` register slot. -/
def triggerSeq (fuel : Nat) : LeydiStacks → List (Nat × Event) → Option (List Nat × LeydiStacks)
  | rt, [] => some ([], rt)
  | rt, c :: rest =>
    (trigger_stack_func fuel rt c.1 c.2).bind (fun r =>
      if 1 ≤ c.1 ∧ c.1 ≤ MAX_STACKS then
        (r.2.stack_pool[c.1]?).bind (fun t =>
          (triggerSeq fuel r.2 rest).map (fun p => (t.stack_context.esi :: p.1, p.2)))
      else triggerSeq fuel r.2 rest)

/-- The buffer bookkeeping invariant: the next available index is the
buffer length, and the pool shape is fixed. -/
def BufWF (rt : LeydiStacks) : Prop :=
  rt.stack_pool.length = MAX_STACKS + 1 ∧
  rt.curr_stack_id ≤ MAX_STACKS ∧
  rt.data_buffer.avaiable_index = rt.data_buffer.data_pool.length

/-- The stack record `trigger_stack_func` writes for the target: saved
stack pointer moved to `alignedTop - TRIGGER_OFFSET`, caller id in `edi`,
pre-append buffer index in `esi`. -/
def trigPrimed (rt : LeydiStacks) (t : Stack) : Stack :=
  { t with stack_context := { t.stack_context with rsp := t.alignedTop - TRIGGER_OFFSET, edi := rt.curr_stack_id, esi := rt.data_buffer.avaiable_index } }

/-- The runtime state `trigger_stack_func` builds before the targeted
switch: target context rewritten, event appended, index bumped. -/
def trigApplied (rt : LeydiStacks) (id : Nat) (ev : Event) (t : Stack) : LeydiStacks :=
  { rt with stack_pool := rt.stack_pool.set id (trigPrimed rt t), data_buffer := { data_pool := rt.data_buffer.data_pool ++ [ev], avaiable_index := rt.data_buffer.avaiable_index + 1 } }

/-- The worker stack primed by the first spawn (C4/C5 witness data). -/
def stack1Spawned : Stack :=
  (rtSpawn1.stack_pool[1]?).getD (Stack.new 0 State.AVAIABLE 0)

/-- The runtime after triggering fiber 1 of `rtSpawn1` (C5 witness). -/
def rtTrig1 : LeydiStacks :=
  ((trigger_stack_func 12 rtSpawn1 1 { pair := (0, 0), data := 42 }).map Prod.snd).getD rtInit

/-- The RUNNING worker stack of `rtRunning1` (C10 witness data). -/
def stack1Run : Stack :=
  (rtRunning1.stack_pool[1]?).getD (Stack.new 0 State.AVAIABLE 0)

/-!
## Theorems

General lemmas about the embedded operations come first, then the claim
theorems.
-/

theorem stateOf_eq_some {rt : LeydiStacks} {i : Nat} {st : State} :
    stateOf rt i = some st ↔ ∃ s, rt.stack_pool[i]? = some s ∧ s.state = st := by
  simp [stateOf, Option.map_eq_some']

theorem stateOf_lt_length {rt : LeydiStacks} {i : Nat} {st : State}
    (h : stateOf rt i = some st) : i < rt.stack_pool.length := by
  obtain ⟨s, hs, -⟩ := stateOf_eq_some.1 h
  exact (List.getElem?_eq_some.1 hs).1

/-- Reading a state from a pool after `set` with a stack whose state field
is unchanged reads the same states everywhere. -/
theorem states_set_eq {pool : List Stack} {i : Nat} {t : Stack} (t' : Stack)
    (hp : pool[i]? = some t) (hstate : t'.state = t.state) (j : Nat) :
    ((pool.set i t')[j]?).map (fun s => s.state) = (pool[j]?).map (fun s => s.state) := by
  rw [List.getElem?_set]
  by_cases hij : i = j
  · subst hij
    rw [if_pos rfl, if_pos (List.getElem?_eq_some.1 hp).1, hp]
    simp [hstate]
  · rw [if_neg hij]

/-- If the RR scan exits with an index, that index is below `MAX_STACKS`
and names a READY stack. -/
theorem rrScanAux_ready {rt : LeydiStacks} :
    ∀ (fuel rid r : Nat), rid < MAX_STACKS →
      rrScanAux rt fuel rid = some (some r) →
      r < MAX_STACKS ∧ stateOf rt r = some State.READY := by
  intro fuel
  induction fuel with
  | zero =>
    intro rid r _ h
    exact absurd h (by simp [rrScanAux])
  | succ n ih =>
    intro rid r hrid h
    rw [rrScanAux] at h
    split at h
    · exact absurd h (by simp)
    · rename_i s hp
      split at h
      · rename_i hs
        obtain rfl : rid = r := by simpa using h
        exact ⟨hrid, stateOf_eq_some.2 ⟨s, hp, hs⟩⟩
      · split at h
        · exact absurd h (by simp)
        · have hnext : nextIdx rid < MAX_STACKS := by
            unfold nextIdx
            by_cases he : rid + 1 = MAX_STACKS
            · rw [if_pos he]; decide
            · rw [if_neg he]
              have h1 : rid + 1 ≤ MAX_STACKS := hrid
              omega
          exact ih (nextIdx rid) r hnext h

/-- If slot 0 is READY the RR scan exits immediately with index 0. -/
theorem rrScanAux_zero_ready {rt : LeydiStacks}
    (h0 : stateOf rt 0 = some State.READY) (n : Nat) :
    rrScanAux rt (n + 1) 0 = some (some 0) := by
  obtain ⟨s, hs, hst⟩ := stateOf_eq_some.1 h0
  rw [rrScanAux, hs]
  simp [hst]

/-- `doSwitch` preserves the invariant when the target is a pool slot that
is not RUNNING (so it is distinct from the current stack). -/
theorem inv_doSwitch_not_running {rt rt' : LeydiStacks} {rid : Nat} {st : State}
    (hInv : Inv rt) (hst : stateOf rt rid = some st) (hne : st ≠ State.RUNNING)
    (h : doSwitch rt rid = some rt') : Inv rt' := by
  obtain ⟨s, hs, hsstate⟩ := stateOf_eq_some.1 hst
  have hridlt : rid < rt.stack_pool.length := (List.getElem?_eq_some.1 hs).1
  have hridne : rid ≠ rt.curr_stack_id := by
    intro e
    rw [e, hInv.running] at hst
    exact hne (Option.some.inj hst).symm
  have hcurrlt : rt.curr_stack_id < rt.stack_pool.length :=
    stateOf_lt_length hInv.running
  obtain ⟨c0, hc0, hc0s⟩ := stateOf_eq_some.1 hInv.running
  have hpool1curr :
      (rt.stack_pool.set rid { s with state := State.RUNNING })[rt.curr_stack_id]? =
        some c0 := by
    rw [List.getElem?_set, if_neg hridne, hc0]
  rw [doSwitch] at h
  split at h
  · exact absurd h (by simp)
  · rename_i s1 hs1
    rw [hs] at hs1
    obtain rfl : s1 = s := (Option.some.inj hs1).symm
    split at h
    · exact absurd h (by simp)
    · rename_i c1 hc1
      rw [hpool1curr] at hc1
      obtain rfl : c1 = c0 := (Option.some.inj hc1).symm
      split at h
      · obtain rfl : _ = rt' := Option.some.inj h
        constructor
        · simpa [List.length_set] using hInv.len
        · show rid ≤ MAX_STACKS
          have hl := hInv.len
          omega
        · show ((_ : List Stack)[rid]?).map _ = _
          rw [List.getElem?_set, if_neg (Ne.symm hridne), List.getElem?_set, if_pos rfl,
            if_pos hridlt]
          rfl
        · intro j hj
          show ((_ : List Stack)[j]?).map _ ≠ _
          rw [List.getElem?_set]
          by_cases hjc : rt.curr_stack_id = j
          · rw [if_pos hjc, if_pos (by simpa [List.length_set, ← hjc] using hcurrlt)]
            simp
          · rw [if_neg hjc, List.getElem?_set, if_neg (fun e => hj e.symm)]
            exact hInv.unique j (fun e => hjc (by rw [e]))
        · intro h0
          have h0' : rid ≠ 0 := h0
          show ((_ : List Stack)[0]?).map _ = _
          rw [List.getElem?_set]
          by_cases hc00 : rt.curr_stack_id = 0
          · rw [if_pos hc00, if_pos (by simpa [List.length_set, ← hc00] using hcurrlt)]
            rfl
          · rw [if_neg hc00, List.getElem?_set, if_neg h0']
            exact hInv.main_ready hc00
      · rename_i hcond
        rw [hc0s] at hcond
        simp at hcond

/-- `doSwitch` to slot 0 establishes the invariant from a state with no
RUNNING fiber and a nonzero current id (the situation after
`terminate_stacks`' mass reset or `finish_and_next_stack`'s release). -/
theorem inv_doSwitch_zero {rt rt' : LeydiStacks}
    (hlen : rt.stack_pool.length = MAX_STACKS + 1)
    (hcurr : rt.curr_stack_id ≤ MAX_STACKS)
    (hcurr0 : rt.curr_stack_id ≠ 0)
    (hnone : ∀ j, stateOf rt j ≠ some State.RUNNING)
    (h : doSwitch rt 0 = some rt') : Inv rt' := by
  have h0lt : (0 : Nat) < rt.stack_pool.length := by
    rw [hlen]; decide
  obtain ⟨s, hs⟩ : ∃ s, rt.stack_pool[0]? = some s :=
    ⟨rt.stack_pool[0], List.getElem?_eq_getElem h0lt⟩
  have hcurrlt : rt.curr_stack_id < rt.stack_pool.length := by
    rw [hlen]; omega
  obtain ⟨c0, hc0⟩ : ∃ c0, rt.stack_pool[rt.curr_stack_id]? = some c0 :=
    ⟨rt.stack_pool[rt.curr_stack_id], List.getElem?_eq_getElem hcurrlt⟩
  have hpool1curr :
      (rt.stack_pool.set 0 { s with state := State.RUNNING })[rt.curr_stack_id]? =
        some c0 := by
    rw [List.getElem?_set, if_neg (fun e => hcurr0 e.symm), hc0]
  rw [doSwitch] at h
  split at h
  · exact absurd h (by simp)
  · rename_i s1 hs1
    rw [hs] at hs1
    obtain rfl : s1 = s := (Option.some.inj hs1).symm
    split at h
    · exact absurd h (by simp)
    · rename_i c1 hc1
      rw [hpool1curr] at hc1
      obtain rfl : c1 = c0 := (Option.some.inj hc1).symm
      split at h
      · obtain rfl : _ = rt' := Option.some.inj h
        constructor
        · simpa [List.length_set] using hlen
        · show 0 ≤ MAX_STACKS
          exact Nat.zero_le _
        · show ((_ : List Stack)[0]?).map _ = _
          rw [List.getElem?_set, if_neg hcurr0, List.getElem?_set, if_pos rfl, if_pos h0lt]
          rfl
        · intro j hj
          show ((_ : List Stack)[j]?).map _ ≠ _
          rw [List.getElem?_set]
          by_cases hjc : rt.curr_stack_id = j
          · rw [if_pos hjc, if_pos (by simpa [List.length_set, ← hjc] using hcurrlt)]
            simp
          · rw [if_neg hjc, List.getElem?_set, if_neg (fun e => hj e.symm)]
            exact hnone j
        · intro hfalse
          exact absurd rfl hfalse
      · obtain rfl : _ = rt' := Option.some.inj h
        constructor
        · simpa [List.length_set] using hlen
        · show 0 ≤ MAX_STACKS
          exact Nat.zero_le _
        · show ((_ : List Stack)[0]?).map _ = _
          rw [List.getElem?_set, if_pos rfl, if_pos h0lt]
          rfl
        · intro j hj
          show ((_ : List Stack)[j]?).map _ ≠ _
          rw [List.getElem?_set, if_neg (fun e => hj e.symm)]
          exact hnone j
        · intro hfalse
          exact absurd rfl hfalse

/-- Unfolding equations of `switch_stack` for a known scan outcome. -/
theorem switch_stack_rr_none {fuel : Nat} {rt : LeydiStacks}
    (hscan : rrScanAux rt fuel 0 = none) :
    switch_stack fuel rt ScheduleType.RR = none := by
  rw [switch_stack, hscan]

theorem switch_stack_rr_false {fuel : Nat} {rt : LeydiStacks}
    (hscan : rrScanAux rt fuel 0 = some none) :
    switch_stack fuel rt ScheduleType.RR = some (false, rt) := by
  rw [switch_stack, hscan]

theorem switch_stack_rr_some {fuel : Nat} {rt : LeydiStacks} {r : Nat}
    (hscan : rrScanAux rt fuel 0 = some (some r)) :
    switch_stack fuel rt ScheduleType.RR = (doSwitch rt r).map (fun x => (true, x)) := by
  rw [switch_stack, hscan]

theorem switch_stack_o1 {fuel : Nat} {rt : LeydiStacks} {id : Nat} :
    switch_stack fuel rt (ScheduleType.O1 id) = (doSwitch rt id).map (fun x => (true, x)) := by
  rw [switch_stack]

/-- With zero scan budget the RR switch has not returned. -/
theorem switch_stack_zero_fuel (rt : LeydiStacks) :
    switch_stack 0 rt ScheduleType.RR = none := rfl

/-- `findIdx?` returns the index of an element satisfying the predicate. -/
theorem findIdx?_some_spec {α : Type} {p : α → Bool} :
    ∀ {l : List α} {i j : Nat}, List.findIdx? p l i = some j →
      i ≤ j ∧ ∃ a, l[j - i]? = some a ∧ p a = true := by
  intro l
  induction l with
  | nil =>
    intro i j h
    exact absurd h (by simp)
  | cons x xs ih =>
    intro i j h
    rw [List.findIdx?_cons] at h
    by_cases hp : p x = true
    · rw [if_pos hp] at h
      obtain rfl : i = j := Option.some.inj h
      exact ⟨le_refl _, ⟨x, by simp, hp⟩⟩
    · rw [if_neg hp] at h
      obtain ⟨hij, a, ha, hpa⟩ := ih h
      refine ⟨by omega, a, ?_, hpa⟩
      have hd : j - i = (j - (i + 1)) + 1 := by omega
      rw [hd, List.getElem?_cons_succ]
      exact ha

/-- `new_stack` preserves the invariant. -/
theorem inv_new_stack {rt rt' : LeydiStacks} {b t j : Nat}
    (hInv : Inv rt) (h : new_stack rt b t = some (j, rt')) : Inv rt' := by
  rw [new_stack] at h
  split at h
  · exact absurd h (by simp)
  · rename_i j0 hf
    split at h
    · exact absurd h (by simp)
    · rename_i s hs
      have hx := Option.some.inj h
      have hj : j0 = j := congrArg Prod.fst hx
      subst hj
      have hrt : rt' = { rt with stack_pool := rt.stack_pool.set j0 (primeStack s b t) } :=
        (congrArg Prod.snd hx).symm
      obtain ⟨-, a, ha, hpa⟩ := findIdx?_some_spec hf
      rw [Nat.sub_zero, hs] at ha
      obtain rfl : s = a := Option.some.inj ha
      have hsA : s.state = State.AVAIABLE := by simpa using hpa
      have hjne : j0 ≠ rt.curr_stack_id := by
        intro e
        have hcr := hInv.running
        rw [← e] at hcr
        obtain ⟨s2, hs2, hs2r⟩ := stateOf_eq_some.1 hcr
        rw [hs] at hs2
        obtain rfl : s2 = s := (Option.some.inj hs2).symm
        rw [hsA] at hs2r
        exact State.noConfusion hs2r
      rw [hrt]
      constructor
      · simpa [List.length_set] using hInv.len
      · exact hInv.curr_le
      · show ((_ : List Stack)[_]?).map _ = _
        rw [List.getElem?_set, if_neg hjne]
        exact hInv.running
      · intro i hi
        show ((_ : List Stack)[i]?).map _ ≠ _
        rw [List.getElem?_set]
        by_cases hji : j0 = i
        · rw [if_pos hji]
          by_cases hlt : j0 < rt.stack_pool.length
          · rw [if_pos hlt]
            intro hcontra
            have hps : (primeStack s b t).state = State.RUNNING := by
              simpa using hcontra
            rw [primeStack] at hps
            exact State.noConfusion hps
          · rw [if_neg hlt]
            simp
        · rw [if_neg hji]
          exact hInv.unique i hi
      · intro h0
        have h0' : rt.curr_stack_id ≠ 0 := h0
        have hj0 : j0 ≠ 0 := by
          intro e
          have hmr : stateOf rt 0 = some State.READY := hInv.main_ready h0'
          rw [← e] at hmr
          obtain ⟨s2, hs2, hs2r⟩ := stateOf_eq_some.1 hmr
          rw [hs] at hs2
          obtain rfl : s2 = s := (Option.some.inj hs2).symm
          rw [hsA] at hs2r
          exact State.noConfusion hs2r
        show ((_ : List Stack)[0]?).map _ = _
        rw [List.getElem?_set, if_neg hj0]
        exact hInv.main_ready h0'

/-- RR switching preserves the invariant. -/
theorem inv_switch_rr {rt rt' : LeydiStacks} {fuel : Nat} {ok : Bool}
    (hInv : Inv rt) (h : switch_stack fuel rt ScheduleType.RR = some (ok, rt')) : Inv rt' := by
  cases hscan : rrScanAux rt fuel 0 with
  | none =>
    rw [switch_stack_rr_none hscan] at h
    exact absurd h (by simp)
  | some o =>
    cases o with
    | none =>
      rw [switch_stack_rr_false hscan] at h
      have hrt : rt = rt' := congrArg Prod.snd (Option.some.inj h)
      exact hrt ▸ hInv
    | some r =>
      rw [switch_stack_rr_some hscan] at h
      obtain ⟨rt2, h2, hmap⟩ := Option.map_eq_some'.1 h
      obtain ⟨-, hready⟩ := rrScanAux_ready fuel 0 r (by decide) hscan
      have hinv2 := inv_doSwitch_not_running hInv hready (by decide) h2
      have hrt : rt2 = rt' := congrArg Prod.snd hmap
      exact hrt ▸ hinv2

/-- Targeted switching preserves the invariant. -/
theorem inv_switch_to {rt rt' : LeydiStacks} {fuel id : Nat} {ok : Bool}
    (hInv : Inv rt) (h : switch_stack_to fuel rt id = some (ok, rt')) : Inv rt' := by
  rw [switch_stack_to] at h
  split at h
  · exact absurd h (by simp)
  · rename_i s hs
    split at h
    · have hrt : rt = rt' := congrArg Prod.snd (Option.some.inj h)
      exact hrt ▸ hInv
    · rename_i hsR
      rw [switch_stack_o1] at h
      obtain ⟨rt2, h2, hmap⟩ := Option.map_eq_some'.1 h
      have hst : stateOf rt id = some s.state := stateOf_eq_some.2 ⟨s, hs, rfl⟩
      have hinv2 := inv_doSwitch_not_running hInv hst hsR h2
      have hrt : rt2 = rt' := congrArg Prod.snd hmap
      exact hrt ▸ hinv2

/-- Triggering preserves the invariant. -/
theorem inv_trigger {rt rt' : LeydiStacks} {fuel id : Nat} {ev : Event} {ok : Bool}
    (hInv : Inv rt) (h : trigger_stack_func fuel rt id ev = some (ok, rt')) : Inv rt' := by
  rw [trigger_stack_func] at h
  split at h
  · have hrt : rt = rt' := congrArg Prod.snd (Option.some.inj h)
    exact hrt ▸ hInv
  · split at h
    · exact absurd h (by simp)
    · rename_i t ht
      refine inv_switch_to ?_ h
      have hse := states_set_eq { t with stack_context := { t.stack_context with rsp := t.alignedTop - TRIGGER_OFFSET, edi := rt.curr_stack_id, esi := rt.data_buffer.avaiable_index } } ht rfl
      constructor
      · simpa [List.length_set] using hInv.len
      · exact hInv.curr_le
      · show ((_ : List Stack)[_]?).map _ = _
        rw [hse]
        exact hInv.running
      · intro i hi
        show ((_ : List Stack)[i]?).map _ ≠ _
        rw [hse]
        exact hInv.unique i hi
      · intro h0
        show ((_ : List Stack)[0]?).map _ = _
        rw [hse]
        exact hInv.main_ready h0

/-- `terminate_stacks` invoked away from the main stack re-establishes the
invariant. -/
theorem inv_terminate {rt rt' : LeydiStacks} {fuel : Nat} {ok : Bool}
    (hInv : Inv rt) (hc : rt.curr_stack_id ≠ PROCESS_MAIN_STACK_ID)
    (h : terminate_stacks fuel rt = some (ok, rt')) : Inv rt' := by
  rw [terminate_stacks] at h
  split at h
  · exact absurd h (by simp)
  · rename_i m hm
    simp only [PROCESS_MAIN_STACK_ID] at h hm
    have hlen1 : (rt.stack_pool.map (fun s => { s with state := State.AVAIABLE })).length = MAX_STACKS + 1 := by
      simpa [List.length_map] using hInv.len
    have h0lt : (0 : Nat) < (rt.stack_pool.map (fun s => { s with state := State.AVAIABLE })).length := by
      rw [hlen1]
      decide
    cases fuel with
    | zero =>
      rw [switch_stack_zero_fuel] at h
      exact absurd h (by simp)
    | succ n =>
      have h0 : stateOf { rt with stack_pool := (rt.stack_pool.map (fun s => { s with state := State.AVAIABLE })).set 0 { m with state := State.READY } } 0 = some State.READY := by
        show ((_ : List Stack)[0]?).map _ = _
        rw [List.getElem?_set, if_pos rfl, if_pos h0lt]
        rfl
      have hscan := rrScanAux_zero_ready h0 n
      rw [switch_stack_rr_some hscan] at h
      obtain ⟨rt2, h2, hmap⟩ := Option.map_eq_some'.1 h
      have hrt : rt2 = rt' := congrArg Prod.snd hmap
      refine hrt ▸ inv_doSwitch_zero ?_ ?_ ?_ ?_ h2
      · simpa [List.length_set] using hlen1
      · exact hInv.curr_le
      · exact hc
      · intro i
        show ((_ : List Stack)[i]?).map _ ≠ _
        rw [List.getElem?_set]
        by_cases h0i : (0 : Nat) = i
        · rw [if_pos h0i, if_pos h0lt]
          simp
        · rw [if_neg h0i, List.getElem?_map]
          cases rt.stack_pool[i]? with
          | none => simp
          | some v => simp

/-- `finish_and_next_stack` preserves the invariant. -/
theorem inv_finish {rt rt' : LeydiStacks} {fuel : Nat}
    (hInv : Inv rt) (h : finish_and_next_stack fuel rt = some rt') : Inv rt' := by
  rw [finish_and_next_stack] at h
  split at h
  · rename_i hc
    split at h
    · exact absurd h (by simp)
    · rename_i c hcs
      have hcurrlt : rt.curr_stack_id < rt.stack_pool.length :=
        stateOf_lt_length hInv.running
      cases fuel with
      | zero =>
        rw [switch_stack_zero_fuel] at h
        exact Option.noConfusion h
      | succ n =>
        have hc0 : rt.curr_stack_id ≠ 0 := hc
        have h0 : stateOf { rt with stack_pool := rt.stack_pool.set rt.curr_stack_id { c with state := State.AVAIABLE } } 0 = some State.READY := by
          show ((_ : List Stack)[0]?).map _ = _
          rw [List.getElem?_set, if_neg hc0]
          exact hInv.main_ready hc
        have hscan := rrScanAux_zero_ready h0 n
        rw [switch_stack_rr_some hscan] at h
        rcases hdo : doSwitch { rt with stack_pool := rt.stack_pool.set rt.curr_stack_id { c with state := State.AVAIABLE } } 0 with _ | rt2
        · rw [hdo] at h
          exact Option.noConfusion h
        · rw [hdo] at h
          have hrt : rt2 = rt' := Option.some.inj h
          refine hrt ▸ inv_doSwitch_zero ?_ ?_ ?_ ?_ hdo
          · simpa [List.length_set] using hInv.len
          · exact hInv.curr_le
          · exact hc
          · intro i
            show ((_ : List Stack)[i]?).map _ ≠ _
            rw [List.getElem?_set]
            by_cases hci : rt.curr_stack_id = i
            · rw [if_pos hci, if_pos hcurrlt]
              simp
            · rw [if_neg hci]
              exact hInv.unique i (fun e => hci e.symm)
  · exact (Option.some.inj h) ▸ hInv

/-- The invariant holds of a freshly constructed runtime. -/
theorem inv_init (bases : Nat → Nat) : Inv (LeydiStacks.new bases) := by
  constructor
  · simp [LeydiStacks.new, List.length_map, List.length_range']
  · show PROCESS_MAIN_STACK_ID ≤ MAX_STACKS
    decide
  · rfl
  · intro j hj
    cases j with
    | zero => exact absurd rfl hj
    | succ k =>
      simp only [stateOf, LeydiStacks.new, List.getElem?_cons_succ, List.getElem?_map]
      cases hOpt : (List.range' 1 MAX_STACKS)[k]? with
      | none => simp
      | some v => simp [Stack.new]
  · intro h0
    exact absurd rfl h0

/-- Every reachable state satisfies the invariant. -/
theorem inv_reach {rt : LeydiStacks} (h : Reach rt) : Inv rt := by
  induction h with
  | init bases => exact inv_init bases
  | spawn b t j _ hstep ih => exact inv_new_stack ih hstep
  | yieldStep fuel ok _ hstep ih => exact inv_switch_rr ih hstep
  | gotoMainStep fuel ok _ hc hstep ih => exact inv_terminate ih hc hstep
  | stackToStep fuel id ok _ hstep ih => exact inv_switch_to ih hstep
  | triggerStep fuel id ev ok _ hstep ih => exact inv_trigger ih hstep
  | finishStep fuel _ hstep ih => exact inv_finish ih hstep

/-- C1 (amended): after every public operation returns — with `goto_main`
invoked only from worker fibers — exactly one fiber is RUNNING and its id
is `curr_stack_id`, for every reachable runtime state. -/
theorem one_running_reachable (rt : LeydiStacks) (h : Reach rt) : ExactlyOneRunning rt :=
  ⟨(inv_reach h).running, (inv_reach h).unique⟩

/-- Witness for C1 at the initial runtime state. -/
theorem one_running_reachable_witness :
    stateOf rtInit rtInit.curr_stack_id = some State.RUNNING ∧
    stateOf rtInit 3 ≠ some State.RUNNING :=
  ⟨(one_running_reachable rtInit (Reach.init bases0)).1,
   (one_running_reachable rtInit (Reach.init bases0)).2 3 (by decide)⟩

/-- C8: for every state and every event, `trigger` with a target id equal
to the main fiber id (0) or out of range (`id > MAX_STACKS`) returns false
and leaves the entire runtime state (fiber states, saved contexts, event
buffer, `curr_stack_id`) unchanged: the rejection happens before any
mutation, so the returned runtime is the input runtime itself. -/
theorem trigger_bad_id_rejected (fuel : Nat) (rt : LeydiStacks) (id : Nat) (ev : Event)
    (h : id = PROCESS_MAIN_STACK_ID ∨ id > MAX_STACKS) :
    trigger_stack_func fuel rt id ev = some (false, rt) := by
  have hg : id ≤ PROCESS_MAIN_STACK_ID ∨ id > MAX_STACKS := by
    rcases h with h | h
    · exact Or.inl (le_of_eq h)
    · exact Or.inr h
  unfold trigger_stack_func
  rw [if_pos hg]

/-- Witness for C8 at the concrete inputs `id = 0` and `id = MAX_STACKS + 1`. -/
theorem trigger_bad_id_rejected_witness :
    trigger_stack_func 5 rtInit 0 { pair := (1, 2), data := 3 } = some (false, rtInit) ∧
    trigger_stack_func 5 rtInit (MAX_STACKS + 1) { pair := (1, 2), data := 3 } =
      some (false, rtInit) :=
  ⟨trigger_bad_id_rejected 5 rtInit 0 _ (Or.inl rfl),
   trigger_bad_id_rejected 5 rtInit (MAX_STACKS + 1) _ (Or.inr (by decide))⟩

/-- C2 (failing input): spawning `MAX_STACKS = 5` bodies into a fresh pool
and running leaves the body of fiber 5 unexecuted — the RR scan resets its
index to 0 when it reaches `MAX_STACKS` before ever examining slot
`MAX_STACKS`, so `run` returns with fiber 5 still READY, while `k = 4`
bodies do run exactly once in id order. -/
theorem run_never_schedules_last_slot :
    ((s1exec MAX_STACKS).bind (runExec 200)).map
        (fun e => (e.log, e.rt.curr_stack_id, e.rt.stack_pool.map (fun s => s.state))) =
      some ([("fiber", 1), ("fiber", 2), ("fiber", 3), ("fiber", 4)],
        PROCESS_MAIN_STACK_ID,
        [State.RUNNING, State.AVAIABLE, State.AVAIABLE, State.AVAIABLE,
         State.AVAIABLE, State.READY]) ∧
    ((s1exec 4).bind (runExec 200)).map
        (fun e => (e.log, e.rt.curr_stack_id)) =
      some ([("fiber", 1), ("fiber", 2), ("fiber", 3), ("fiber", 4)],
        PROCESS_MAIN_STACK_ID) :=
  ⟨by decide, by decide⟩

/-- C7 (counterexample): scenario S2 does not produce the interleaved log
`["A1", "B1", "A2", "B2"]` the claim states. -/
theorem yield_interleaving_cex :
    (s2exec.bind (runExec 100)).map (fun e => e.log) ≠
      some [("A1", 0), ("B1", 0), ("A2", 0), ("B2", 0)] := by decide

/-- C7 (amended): in scenario S2, every `yield_next` switches to the main
fiber (slot 0 is scanned first and main is READY), whose `run` loop then
re-selects the lowest READY id — the yielding fiber itself — so body A
runs to completion before body B starts and the log is
`["A1", "A2", "B1", "B2"]`. -/
theorem yield_goes_back_to_low_ids :
    (s2exec.bind (runExec 100)).map (fun e => e.log) =
      some [("A1", 0), ("A2", 0), ("B1", 0), ("B2", 0)] := by decide

/-- C1 (counterexample): `goto_main` (`terminate_stacks`) invoked from the
main fiber itself is a public operation that returns with no fiber in
state RUNNING: the RR switch selects main (READY after the mass reset) and
then demotes the outgoing fiber — main again — back to READY. -/
theorem goto_main_from_main_no_running :
    terminate_stacks 12 rtInit = some (true, rtTerm) ∧
    rtTerm.curr_stack_id = PROCESS_MAIN_STACK_ID ∧
    rtTerm.stack_pool.map (fun s => s.state) =
      [State.READY, State.AVAIABLE, State.AVAIABLE, State.AVAIABLE,
       State.AVAIABLE, State.AVAIABLE] ∧
    stateOf rtTerm rtTerm.curr_stack_id ≠ some State.RUNNING :=
  ⟨rfl, rfl, by decide, by decide⟩

/-- Auxiliary for C3: on the no-READY state with `curr_stack_id =
MAX_STACKS`, the RR scan loop never exits — from any index below
`MAX_STACKS` it cycles through 0..4 forever, because the index is reset to
0 exactly when it would become `MAX_STACKS` and therefore never compares
equal to `curr_stack_id`. -/
theorem cexNoReady_scan_spins :
    ∀ (fuel rid : Nat), rid < MAX_STACKS → rrScanAux cexNoReady fuel rid = none := by
  intro fuel
  induction fuel with
  | zero => intro rid _; rfl
  | succ n ih =>
    intro rid hrid
    have hrid5 : rid < 5 := hrid
    interval_cases rid
    · show rrScanAux cexNoReady (n + 1) 0 = none
      have h : rrScanAux cexNoReady (n + 1) 0 = rrScanAux cexNoReady n 1 := rfl
      rw [h]; exact ih 1 (by decide)
    · show rrScanAux cexNoReady (n + 1) 1 = none
      have h : rrScanAux cexNoReady (n + 1) 1 = rrScanAux cexNoReady n 2 := rfl
      rw [h]; exact ih 2 (by decide)
    · show rrScanAux cexNoReady (n + 1) 2 = none
      have h : rrScanAux cexNoReady (n + 1) 2 = rrScanAux cexNoReady n 3 := rfl
      rw [h]; exact ih 3 (by decide)
    · show rrScanAux cexNoReady (n + 1) 3 = none
      have h : rrScanAux cexNoReady (n + 1) 3 = rrScanAux cexNoReady n 4 := rfl
      rw [h]; exact ih 4 (by decide)
    · show rrScanAux cexNoReady (n + 1) 4 = none
      have h : rrScanAux cexNoReady (n + 1) 4 = rrScanAux cexNoReady n 0 := rfl
      rw [h]; exact ih 0 (by decide)

/-- C3 (failing input): on a runtime state with no READY fiber and
`curr_stack_id = MAX_STACKS`, RR selection does not terminate: for every
iteration budget the scan loop has still not returned, so it never returns
false ("nothing to do") as the claim states. -/
theorem rr_no_ready_curr_max_diverges :
    cexNoReady.stack_pool.map (fun s => s.state) =
      [State.AVAIABLE, State.AVAIABLE, State.AVAIABLE, State.AVAIABLE,
       State.AVAIABLE, State.AVAIABLE] ∧
    cexNoReady.curr_stack_id = MAX_STACKS ∧
    (∀ fuel, switch_stack fuel cexNoReady ScheduleType.RR = none) := by
  refine ⟨by decide, rfl, ?_⟩
  intro fuel
  cases fuel with
  | zero => rfl
  | succ n =>
    have h := cexNoReady_scan_spins (n + 1) 0 (by decide)
    unfold switch_stack
    rw [h]

/-- Witness instantiating the universally quantified fuel of the C3
theorem at a concrete budget. -/
theorem rr_no_ready_curr_max_diverges_witness :
    switch_stack 1000 cexNoReady ScheduleType.RR = none :=
  rr_no_ready_curr_max_diverges.2.2 1000

/-- C9: `new_stack` with no AVAIABLE fiber in the pool hits the
`expect` panic (modelled as `none`); on a fresh runtime `MAX_STACKS`
spawns succeed and the `(MAX_STACKS + 1)`-th panics. -/
theorem spawn_pool_exhaustion :
    (∀ (rt : LeydiStacks) (b t : Nat),
        (∀ s ∈ rt.stack_pool, s.state ≠ State.AVAIABLE) → new_stack rt b t = none) ∧
    (spawnN MAX_STACKS (some rtInit)).isSome = true ∧
    spawnN (MAX_STACKS + 1) (some rtInit) = none := by
  refine ⟨?_, rfl, rfl⟩
  intro rt b t h
  unfold new_stack
  have hnone : rt.stack_pool.findIdx? (fun s => s.state == State.AVAIABLE) = none := by
    rw [List.findIdx?_eq_none_iff]
    intro x hx
    simpa using h x hx
  rw [hnone]

/-- Witness for C9: the pool after `MAX_STACKS` spawns has no AVAIABLE
fiber, and the general part of the theorem applies to it. -/
theorem spawn_pool_exhaustion_witness :
    new_stack rtFull 0 0 = none :=
  spawn_pool_exhaustion.1 rtFull 0 0 (by decide)

/-- Unfolding `doSwitch` once both lookups are known. -/
theorem doSwitch_eq_of {rt : LeydiStacks} {rid : Nat} {s c : Stack}
    (hs : rt.stack_pool[rid]? = some s)
    (hc : (rt.stack_pool.set rid { s with state := State.RUNNING })[rt.curr_stack_id]? = some c) :
    doSwitch rt rid =
      if c.state ≠ State.AVAIABLE then
        some { rt with stack_pool := (rt.stack_pool.set rid { s with state := State.RUNNING }).set rt.curr_stack_id { c with state := State.READY }, curr_stack_id := rid }
      else
        some { rt with stack_pool := rt.stack_pool.set rid { s with state := State.RUNNING }, curr_stack_id := rid } := by
  rw [doSwitch, hs]
  split
  · rename_i heq
    exact Option.noConfusion heq
  · rename_i s1 heq
    obtain rfl : s = s1 := Option.some.inj heq
    split
    · rename_i heq2
      exact Option.noConfusion (hc.symm.trans heq2)
    · rename_i c1 heq2
      obtain rfl : c = c1 := Option.some.inj (hc.symm.trans heq2)
      rfl

/-- Unfolding `switch_stack_to` once the target lookup is known. -/
theorem switch_stack_to_eq_of {fuel : Nat} {rt : LeydiStacks} {id : Nat} {s : Stack}
    (hs : rt.stack_pool[id]? = some s) :
    switch_stack_to fuel rt id =
      if s.state = State.RUNNING then some (false, rt)
      else switch_stack fuel rt (ScheduleType.O1 id) := by
  rw [switch_stack_to, hs]

/-- On a valid worker id, `trigger_stack_func` rewrites the target's
context, appends the event, bumps the index, and then attempts the
targeted switch. -/
theorem trigger_eq_of {fuel : Nat} {rt : LeydiStacks} {id : Nat} {ev : Event} {t : Stack}
    (h1 : 1 ≤ id) (h2 : id ≤ MAX_STACKS) (ht : rt.stack_pool[id]? = some t) :
    trigger_stack_func fuel rt id ev = switch_stack_to fuel (trigApplied rt id ev t) id := by
  have hP : PROCESS_MAIN_STACK_ID = 0 := rfl
  have hM : MAX_STACKS = 5 := rfl
  have hguard : ¬(id ≤ PROCESS_MAIN_STACK_ID ∨ id > MAX_STACKS) := by
    rintro (hl | hr)
    · omega
    · omega
  rw [trigger_stack_func, if_neg hguard, ht]
  rfl

/-- What a trigger call on a valid worker id does to the runtime state:
the event is appended, the index bumped, and the target's saved `rsp`,
`edi` and `esi` overwritten — whether or not the final switch succeeds.
When the target is RUNNING the switch is refused (`false`) yet those
mutations have already happened and the fiber states are untouched. -/
theorem trigger_accepted_spec (fuel : Nat) (rt : LeydiStacks) (id : Nat) (ev : Event) (t : Stack)
    (hlen : rt.stack_pool.length = MAX_STACKS + 1)
    (hcurr : rt.curr_stack_id ≤ MAX_STACKS)
    (h1 : 1 ≤ id) (h2 : id ≤ MAX_STACKS)
    (ht : rt.stack_pool[id]? = some t) :
    ∃ b rt', trigger_stack_func fuel rt id ev = some (b, rt') ∧
      rt'.data_buffer.data_pool = rt.data_buffer.data_pool ++ [ev] ∧
      rt'.data_buffer.avaiable_index = rt.data_buffer.avaiable_index + 1 ∧
      (rt'.stack_pool[id]?).map (fun x => x.stack_context.rsp) = some (t.alignedTop - TRIGGER_OFFSET) ∧
      (rt'.stack_pool[id]?).map (fun x => x.stack_context.edi) = some rt.curr_stack_id ∧
      (rt'.stack_pool[id]?).map (fun x => x.stack_context.esi) = some rt.data_buffer.avaiable_index ∧
      rt'.stack_pool.length = MAX_STACKS + 1 ∧
      rt'.curr_stack_id ≤ MAX_STACKS ∧
      (t.state = State.RUNNING → b = false ∧ rt'.curr_stack_id = rt.curr_stack_id ∧
        ∀ j, stateOf rt' j = stateOf rt j) := by
  have hM : MAX_STACKS = 5 := rfl
  have hidlt : id < rt.stack_pool.length := by omega
  have hA1 : (trigApplied rt id ev t).stack_pool[id]? = some (trigPrimed rt t) := by
    show (rt.stack_pool.set id (trigPrimed rt t))[id]? = _
    rw [List.getElem?_set, if_pos rfl, if_pos hidlt]
  rw [trigger_eq_of h1 h2 ht, switch_stack_to_eq_of hA1]
  by_cases hrun : t.state = State.RUNNING
  · rw [if_pos (show (trigPrimed rt t).state = State.RUNNING from hrun)]
    refine ⟨false, trigApplied rt id ev t, rfl, rfl, rfl, ?_, ?_, ?_, ?_, hcurr, ?_⟩
    · rw [hA1]; rfl
    · rw [hA1]; rfl
    · rw [hA1]; rfl
    · show (rt.stack_pool.set id (trigPrimed rt t)).length = MAX_STACKS + 1
      rw [List.length_set]; exact hlen
    · intro _
      exact ⟨rfl, rfl, fun j => states_set_eq (trigPrimed rt t) ht rfl j⟩
  · rw [if_neg (show ¬(trigPrimed rt t).state = State.RUNNING from hrun), switch_stack_o1]
    set tp := trigPrimed rt t with htp
    have hrsp : tp.stack_context.rsp = t.alignedTop - TRIGGER_OFFSET := by rw [htp]; rfl
    have hedi : tp.stack_context.edi = rt.curr_stack_id := by rw [htp]; rfl
    have hesi : tp.stack_context.esi = rt.data_buffer.avaiable_index := by rw [htp]; rfl
    have hlenA : (trigApplied rt id ev t).stack_pool.length = MAX_STACKS + 1 := by
      show (rt.stack_pool.set id tp).length = _
      rw [List.length_set]; exact hlen
    have hidltA : id < ((trigApplied rt id ev t).stack_pool.set id
        { tp with state := State.RUNNING }).length := by
      rw [List.length_set, hlenA]; omega
    have hcurrlt : (trigApplied rt id ev t).curr_stack_id <
        ((trigApplied rt id ev t).stack_pool.set id { tp with state := State.RUNNING }).length := by
      show rt.curr_stack_id < _
      rw [List.length_set, hlenA]; omega
    obtain ⟨c, hcget⟩ : ∃ c, ((trigApplied rt id ev t).stack_pool.set id
        { tp with state := State.RUNNING })[(trigApplied rt id ev t).curr_stack_id]? = some c :=
      ⟨_, List.getElem?_eq_getElem hcurrlt⟩
    rw [doSwitch_eq_of hA1 hcget]
    have hkeyA : ∃ x : Stack,
        ((((trigApplied rt id ev t).stack_pool.set id { tp with state := State.RUNNING }).set (trigApplied rt id ev t).curr_stack_id { c with state := State.READY }))[id]? = some x ∧
        x.stack_context = tp.stack_context := by
      by_cases hci : (trigApplied rt id ev t).curr_stack_id = id
      · have hidltA2 : id < (trigApplied rt id ev t).stack_pool.length := by
          rw [hlenA]; omega
        have hc' : { tp with state := State.RUNNING } = c := by
          rw [hci] at hcget
          rw [List.getElem?_set, if_pos rfl, if_pos hidltA2] at hcget
          exact Option.some.inj hcget
        refine ⟨{ c with state := State.READY }, ?_, ?_⟩
        · rw [List.getElem?_set, if_pos hci, if_pos hcurrlt]
        · show c.stack_context = _
          rw [← hc']
      · refine ⟨{ tp with state := State.RUNNING }, ?_, rfl⟩
        rw [List.getElem?_set, if_neg hci, List.getElem?_set, if_pos rfl,
          if_pos (by rw [hlenA]; omega)]
    have hkeyB : ∃ x : Stack,
        (((trigApplied rt id ev t).stack_pool.set id { tp with state := State.RUNNING }))[id]? = some x ∧
        x.stack_context = tp.stack_context := by
      refine ⟨{ tp with state := State.RUNNING }, ?_, rfl⟩
      rw [List.getElem?_set, if_pos rfl, if_pos (by rw [hlenA]; omega)]
    by_cases hca : c.state ≠ State.AVAIABLE
    · rw [if_pos hca]
      obtain ⟨x, hx, hxctx⟩ := hkeyA
      refine ⟨true, _, rfl, rfl, rfl, ?_, ?_, ?_, ?_, h2, ?_⟩
      · show ((_ : List Stack)[id]?).map _ = _
        rw [hx, Option.map_some', hxctx, hrsp]
      · show ((_ : List Stack)[id]?).map _ = _
        rw [hx, Option.map_some', hxctx, hedi]
      · show ((_ : List Stack)[id]?).map _ = _
        rw [hx, Option.map_some', hxctx, hesi]
      · show ((_ : List Stack).set _ _).length = _
        rw [List.length_set, List.length_set]
        exact hlenA
      · intro hr
        exact absurd hr hrun
    · rw [if_neg hca]
      obtain ⟨x, hx, hxctx⟩ := hkeyB
      refine ⟨true, _, rfl, rfl, rfl, ?_, ?_, ?_, ?_, h2, ?_⟩
      · show ((_ : List Stack)[id]?).map _ = _
        rw [hx, Option.map_some', hxctx, hrsp]
      · show ((_ : List Stack)[id]?).map _ = _
        rw [hx, Option.map_some', hxctx, hedi]
      · show ((_ : List Stack)[id]?).map _ = _
        rw [hx, Option.map_some', hxctx, hesi]
      · show ((_ : List Stack).set _ _).length = _
        rw [List.length_set]
        exact hlenA
      · intro hr
        exact absurd hr hrun

/-- C10: a `trigger` on a valid worker id whose fiber is currently RUNNING
returns false without performing a switch, yet the runtime state has
already been mutated before the rejection: the event was appended,
`avaiable_index` incremented, and the target's saved stack pointer and
both argument-register slots overwritten — the failed trigger is not
atomic. -/
theorem trigger_on_running_not_atomic (fuel : Nat) (rt : LeydiStacks) (id : Nat) (ev : Event)
    (t : Stack)
    (hlen : rt.stack_pool.length = MAX_STACKS + 1)
    (hcurr : rt.curr_stack_id ≤ MAX_STACKS)
    (h1 : 1 ≤ id) (h2 : id ≤ MAX_STACKS)
    (ht : rt.stack_pool[id]? = some t)
    (hrun : t.state = State.RUNNING) :
    ∃ rt', trigger_stack_func fuel rt id ev = some (false, rt') ∧
      rt'.data_buffer.data_pool = rt.data_buffer.data_pool ++ [ev] ∧
      rt'.data_buffer.avaiable_index = rt.data_buffer.avaiable_index + 1 ∧
      (rt'.stack_pool[id]?).map (fun x => x.stack_context.rsp) = some (t.alignedTop - TRIGGER_OFFSET) ∧
      (rt'.stack_pool[id]?).map (fun x => x.stack_context.edi) = some rt.curr_stack_id ∧
      (rt'.stack_pool[id]?).map (fun x => x.stack_context.esi) = some rt.data_buffer.avaiable_index ∧
      rt'.curr_stack_id = rt.curr_stack_id ∧
      (∀ j, stateOf rt' j = stateOf rt j) := by
  obtain ⟨b, rt', heq, hpool, hidx, hrsp, hedi, hesi, -, -, hbundle⟩ :=
    trigger_accepted_spec fuel rt id ev t hlen hcurr h1 h2 ht
  obtain ⟨hb, hcurr', hstates⟩ := hbundle hrun
  subst hb
  exact ⟨rt', heq, hpool, hidx, hrsp, hedi, hesi, hcurr', hstates⟩

/-- Witness for C10: fiber 1 is the RUNNING fiber of `rtRunning1`, and a
trigger aimed at it fails yet mutates the state. -/
theorem trigger_on_running_not_atomic_witness :
    ∃ rt', trigger_stack_func 12 rtRunning1 1 { pair := (0, 1), data := 9 } = some (false, rt') ∧
      rt'.data_buffer.data_pool = rtRunning1.data_buffer.data_pool ++ [{ pair := (0, 1), data := 9 }] ∧
      rt'.data_buffer.avaiable_index = rtRunning1.data_buffer.avaiable_index + 1 ∧
      (rt'.stack_pool[1]?).map (fun x => x.stack_context.rsp) = some (stack1Run.alignedTop - TRIGGER_OFFSET) ∧
      (rt'.stack_pool[1]?).map (fun x => x.stack_context.edi) = some rtRunning1.curr_stack_id ∧
      (rt'.stack_pool[1]?).map (fun x => x.stack_context.esi) = some rtRunning1.data_buffer.avaiable_index ∧
      rt'.curr_stack_id = rtRunning1.curr_stack_id ∧
      (∀ j, stateOf rt' j = stateOf rtRunning1 j) :=
  trigger_on_running_not_atomic 12 rtRunning1 1 { pair := (0, 1), data := 9 } stack1Run
    (by decide) (by decide) (by decide) (by decide) rfl (by decide)

/-- C5: triggering a freshly spawned fiber resumes it at its trigger entry
(the saved stack pointer having been rewritten to `alignedTop - 32`), the
entry receives the caller id, returning from it releases the fiber to
AVAIABLE via `finish_and_next_stack`, and the fiber's body never runs. -/
theorem trigger_resumes_at_trigger_entry :
    ((s3exec.bind (runExec 50)).map (fun e => (e.log, stateOf e.rt 1)) =
      some ([("trig1", 0)], some State.AVAIABLE)) ∧
    (∀ (fuel : Nat) (rt : LeydiStacks) (id : Nat) (ev : Event) (t : Stack) (b : Bool)
        (rt' : LeydiStacks),
      rt.stack_pool.length = MAX_STACKS + 1 → rt.curr_stack_id ≤ MAX_STACKS →
      1 ≤ id → id ≤ MAX_STACKS → rt.stack_pool[id]? = some t →
      trigger_stack_func fuel rt id ev = some (b, rt') →
      (rt'.stack_pool[id]?).map (fun x => x.stack_context.rsp) =
        some (t.alignedTop - TRIGGER_OFFSET)) := by
  refine ⟨by decide, ?_⟩
  intro fuel rt id ev t b rt' hlen hcurr h1 h2 ht heq
  obtain ⟨b2, rt2, heq2, -, -, hrsp, -⟩ :=
    trigger_accepted_spec fuel rt id ev t hlen hcurr h1 h2 ht
  rw [heq] at heq2
  have hrt : rt' = rt2 := congrArg Prod.snd (Option.some.inj heq2)
  rw [hrt]
  exact hrsp

/-- Witness for C5 at the concrete spawned runtime. -/
theorem trigger_resumes_at_trigger_entry_witness :
    (rtTrig1.stack_pool[1]?).map (fun x => x.stack_context.rsp) =
      some (stack1Spawned.alignedTop - TRIGGER_OFFSET) :=
  trigger_resumes_at_trigger_entry.2 12 rtSpawn1 1 { pair := (0, 0), data := 42 }
    stack1Spawned true rtTrig1 (by decide) (by decide) (by decide) (by decide) rfl rfl

/-- The aligned top is a multiple of 16. -/
theorem align16_mod (x : Nat) : align16 x % 16 = 0 := by
  unfold align16
  omega

/-- Every stack buffer's aligned top lies at least 64 bytes above zero. -/
theorem alignedTop_ge (s : Stack) : 64 ≤ s.alignedTop := by
  unfold Stack.alignedTop align16 STACK_BUFFER_SIZE
  omega

/-- The words `primeStack` leaves at the seven chain slots, and the primed
stack pointer. -/
theorem primeStack_facts (s : Stack) (b t : Nat) :
    (primeStack s b t).buf (s.alignedTop - 16) = Word.fnFinishAndNext ∧
    (primeStack s b t).buf (s.alignedTop - 24) = Word.fnFuncReturn ∧
    (primeStack s b t).buf (s.alignedTop - 32) = Word.fnTrig t ∧
    (primeStack s b t).buf (s.alignedTop - 40) = Word.fnFuncReturn ∧
    (primeStack s b t).buf (s.alignedTop - 48) = Word.fnFinishAndNext ∧
    (primeStack s b t).buf (s.alignedTop - 56) = Word.fnFuncReturn ∧
    (primeStack s b t).buf (s.alignedTop - 64) = Word.fnBase b ∧
    (primeStack s b t).stack_context.rsp = s.alignedTop - 64 := by
  have htop : 64 ≤ s.alignedTop := alignedTop_ge s
  refine ⟨?_, ?_, ?_, ?_, ?_, ?_, ?_, rfl⟩
  · simp only [primeStack]
    rw [if_pos trivial]
  · simp only [primeStack]
    rw [if_neg (by omega), if_pos trivial]
  · simp only [primeStack]
    rw [if_neg (by omega), if_neg (by omega), if_pos trivial]
  · simp only [primeStack]
    rw [if_neg (by omega), if_neg (by omega), if_neg (by omega), if_pos trivial]
  · simp only [primeStack]
    rw [if_neg (by omega), if_neg (by omega), if_neg (by omega), if_neg (by omega),
      if_pos trivial]
  · simp only [primeStack]
    rw [if_neg (by omega), if_neg (by omega), if_neg (by omega), if_neg (by omega),
      if_neg (by omega), if_pos trivial]
  · simp only [primeStack]
    rw [if_neg (by omega), if_neg (by omega), if_neg (by omega), if_neg (by omega),
      if_neg (by omega), if_neg (by omega), if_pos trivial]

/-- C4: every spawn primes the chosen AVAIABLE stack so that, from the
16-byte-aligned top of its buffer, offsets -16, -24, -32, -40, -48, -56,
-64 hold the addresses of `finish_and_next_stack`, the ret-thunk, the
trigger entry, the ret-thunk, `finish_and_next_stack`, the ret-thunk and
the body respectively, and the initial saved stack pointer is `top - 64`. -/
theorem spawn_prime_layout (rt : LeydiStacks) (b t j : Nat) (rt' : LeydiStacks)
    (h : new_stack rt b t = some (j, rt')) :
    ∃ s, rt.stack_pool[j]? = some s ∧ s.state = State.AVAIABLE ∧
      s.alignedTop % 16 = 0 ∧
      rt'.stack_pool[j]? = some (primeStack s b t) ∧
      (primeStack s b t).buf (s.alignedTop - 16) = Word.fnFinishAndNext ∧
      (primeStack s b t).buf (s.alignedTop - 24) = Word.fnFuncReturn ∧
      (primeStack s b t).buf (s.alignedTop - 32) = Word.fnTrig t ∧
      (primeStack s b t).buf (s.alignedTop - 40) = Word.fnFuncReturn ∧
      (primeStack s b t).buf (s.alignedTop - 48) = Word.fnFinishAndNext ∧
      (primeStack s b t).buf (s.alignedTop - 56) = Word.fnFuncReturn ∧
      (primeStack s b t).buf (s.alignedTop - 64) = Word.fnBase b ∧
      (primeStack s b t).stack_context.rsp = s.alignedTop - 64 := by
  rw [new_stack] at h
  split at h
  · exact absurd h (by simp)
  · rename_i j0 hf
    split at h
    · exact absurd h (by simp)
    · rename_i s hs
      have hx := Option.some.inj h
      have hj : j0 = j := congrArg Prod.fst hx
      subst hj
      have hrt : rt' = { rt with stack_pool := rt.stack_pool.set j0 (primeStack s b t) } :=
        (congrArg Prod.snd hx).symm
      obtain ⟨-, a, ha, hpa⟩ := findIdx?_some_spec hf
      rw [Nat.sub_zero, hs] at ha
      obtain rfl : s = a := Option.some.inj ha
      have hjlt : j0 < rt.stack_pool.length := (List.getElem?_eq_some.1 hs).1
      obtain ⟨f16, f24, f32, f40, f48, f56, f64, frsp⟩ := primeStack_facts s b t
      refine ⟨s, hs, by simpa using hpa, align16_mod _, ?_, f16, f24, f32, f40, f48, f56,
        f64, frsp⟩
      rw [hrt]
      show ((_ : List Stack)[j0]?) = _
      rw [List.getElem?_set, if_pos rfl, if_pos hjlt]

/-- Witness for C4 at the first spawn on a fresh runtime. -/
theorem spawn_prime_layout_witness :
    new_stack rtInit 7 9 = some (1, rtSpawn1) ∧
    (∃ s, rtInit.stack_pool[1]? = some s ∧ s.state = State.AVAIABLE ∧
      s.alignedTop % 16 = 0 ∧
      rtSpawn1.stack_pool[1]? = some (primeStack s 7 9) ∧
      (primeStack s 7 9).buf (s.alignedTop - 16) = Word.fnFinishAndNext ∧
      (primeStack s 7 9).buf (s.alignedTop - 24) = Word.fnFuncReturn ∧
      (primeStack s 7 9).buf (s.alignedTop - 32) = Word.fnTrig 9 ∧
      (primeStack s 7 9).buf (s.alignedTop - 40) = Word.fnFuncReturn ∧
      (primeStack s 7 9).buf (s.alignedTop - 48) = Word.fnFinishAndNext ∧
      (primeStack s 7 9).buf (s.alignedTop - 56) = Word.fnFuncReturn ∧
      (primeStack s 7 9).buf (s.alignedTop - 64) = Word.fnBase 7 ∧
      (primeStack s 7 9).stack_context.rsp = s.alignedTop - 64) :=
  ⟨rfl, spawn_prime_layout rtInit 7 9 1 rtSpawn1 rfl⟩

/-- One accepted trigger call delivers the pre-append buffer index in the
target's `esi` slot, the caller's id in `edi`, records the event at that
index, bumps the index by one, and preserves the bookkeeping invariant. -/
theorem trigger_bufwf_step (fuel : Nat) (rt : LeydiStacks) (id : Nat) (ev : Event)
    (hwf : BufWF rt) (h1 : 1 ≤ id) (h2 : id ≤ MAX_STACKS) :
    ∃ b rt', trigger_stack_func fuel rt id ev = some (b, rt') ∧
      (rt'.stack_pool[id]?).map (fun x => x.stack_context.esi) =
        some rt.data_buffer.avaiable_index ∧
      (rt'.stack_pool[id]?).map (fun x => x.stack_context.edi) = some rt.curr_stack_id ∧
      rt'.data_buffer.data_pool[rt.data_buffer.avaiable_index]? = some ev ∧
      rt'.data_buffer.avaiable_index = rt.data_buffer.avaiable_index + 1 ∧
      BufWF rt' := by
  obtain ⟨hlen, hcurr, hidx⟩ := hwf
  have hM : MAX_STACKS = 5 := rfl
  have hidlt : id < rt.stack_pool.length := by omega
  obtain ⟨t, ht⟩ : ∃ t, rt.stack_pool[id]? = some t :=
    ⟨rt.stack_pool[id], List.getElem?_eq_getElem hidlt⟩
  obtain ⟨b, rt', heq, hpool, hidx', hrsp, hedi, hesi, hlen', hcurr', -⟩ :=
    trigger_accepted_spec fuel rt id ev t hlen hcurr h1 h2 ht
  refine ⟨b, rt', heq, hesi, hedi, ?_, hidx', hlen', hcurr', ?_⟩
  · rw [hpool, hidx]
    exact List.getElem?_concat_length _ _
  · rw [hidx', hpool, List.length_append, hidx]
    rfl

/-- C6: across every sequence of trigger calls, each accepted call
delivers the pre-append buffer index in the target's second
argument-register slot and the caller's id in the first; the delivered
indices are exactly `avaiable_index, avaiable_index + 1, ...` in call
order — strictly increasing, gap-free and never reused. -/
theorem event_indices_monotone :
    (∀ (fuel : Nat) (calls : List (Nat × Event)) (rt : LeydiStacks), BufWF rt →
      ∃ ds rtf, triggerSeq fuel rt calls = some (ds, rtf) ∧
        ds = List.range' rt.data_buffer.avaiable_index (acceptedCount calls) ∧
        rtf.data_buffer.avaiable_index =
          rt.data_buffer.avaiable_index + acceptedCount calls) ∧
    (∀ (fuel : Nat) (rt : LeydiStacks) (id : Nat) (ev : Event), BufWF rt →
      1 ≤ id → id ≤ MAX_STACKS →
      ∃ b rt', trigger_stack_func fuel rt id ev = some (b, rt') ∧
        (rt'.stack_pool[id]?).map (fun x => x.stack_context.esi) =
          some rt.data_buffer.avaiable_index ∧
        (rt'.stack_pool[id]?).map (fun x => x.stack_context.edi) = some rt.curr_stack_id ∧
        rt'.data_buffer.data_pool[rt.data_buffer.avaiable_index]? = some ev ∧
        rt'.data_buffer.avaiable_index = rt.data_buffer.avaiable_index + 1) := by
  constructor
  · intro fuel calls
    induction calls with
    | nil =>
      intro rt hwf
      exact ⟨[], rt, rfl, by simp [acceptedCount], by simp [acceptedCount]⟩
    | cons hd rest ih =>
      intro rt hwf
      by_cases hacc : 1 ≤ hd.1 ∧ hd.1 ≤ MAX_STACKS
      · obtain ⟨b, rt', heq, hesi, hedi, hat, hidx', hwf'⟩ :=
          trigger_bufwf_step fuel rt hd.1 hd.2 hwf hacc.1 hacc.2
        obtain ⟨t', ht', htesi⟩ := Option.map_eq_some'.1 hesi
        obtain ⟨ds, rtf, hseq, hds, hcount⟩ := ih rt' hwf'
        have hAC : acceptedCount (hd :: rest) = acceptedCount rest + 1 := by
          simp [acceptedCount, List.countP_cons, hacc]
        rw [hidx'] at hds
        refine ⟨rt.data_buffer.avaiable_index :: ds, rtf, ?_, ?_, ?_⟩
        · rw [triggerSeq, heq, Option.some_bind, if_pos hacc, ht', Option.some_bind,
            hseq, Option.map_some', htesi]
        · rw [hAC, List.range'_succ, hds]
        · rw [hcount, hidx', hAC]
          omega
      · have hM : MAX_STACKS = 5 := rfl
        have hP : PROCESS_MAIN_STACK_ID = 0 := rfl
        have hrej : trigger_stack_func fuel rt hd.1 hd.2 = some (false, rt) :=
          trigger_bad_id_rejected fuel rt hd.1 hd.2 (by omega)
        obtain ⟨ds, rtf, hseq, hds, hcount⟩ := ih rt hwf
        have hAC : acceptedCount (hd :: rest) = acceptedCount rest := by
          simp [acceptedCount, List.countP_cons, hacc]
        refine ⟨ds, rtf, ?_, ?_, ?_⟩
        · rw [triggerSeq, hrej, Option.some_bind, if_neg hacc]
          exact hseq
        · rw [hAC]
          exact hds
        · rw [hAC]
          exact hcount
  · intro fuel rt id ev hwf h1 h2
    obtain ⟨b, rt', heq, hesi, hedi, hat, hidx', -⟩ :=
      trigger_bufwf_step fuel rt id ev hwf h1 h2
    exact ⟨b, rt', heq, hesi, hedi, hat, hidx'⟩

/-- Witness for C6: four trigger calls (one with an invalid id) from a
fresh runtime deliver the gap-free indices starting at 0. -/
theorem event_indices_monotone_witness :
    ∃ ds rtf,
      triggerSeq 12 rtInit
        [(1, { pair := (0, 0), data := 1 }), (2, { pair := (0, 0), data := 2 }),
         (9, { pair := (0, 0), data := 0 }), (3, { pair := (0, 0), data := 3 })] =
        some (ds, rtf) ∧
      ds = List.range' rtInit.data_buffer.avaiable_index
        (acceptedCount
          [(1, { pair := (0, 0), data := 1 }), (2, { pair := (0, 0), data := 2 }),
           (9, { pair := (0, 0), data := 0 }), (3, { pair := (0, 0), data := 3 })]) ∧
      rtf.data_buffer.avaiable_index =
        rtInit.data_buffer.avaiable_index +
          acceptedCount
            [(1, { pair := (0, 0), data := 1 }), (2, { pair := (0, 0), data := 2 }),
             (9, { pair := (0, 0), data := 0 }), (3, { pair := (0, 0), data := 3 })] :=
  event_indices_monotone.1 12
    [(1, { pair := (0, 0), data := 1 }), (2, { pair := (0, 0), data := 2 }),
     (9, { pair := (0, 0), data := 0 }), (3, { pair := (0, 0), data := 3 })]
    rtInit ⟨by decide, by decide, by decide⟩

end LeydiModel
